import Mathlib

/-!
Verification of the FastGEO enrichment engine (`src/fasthtml_geo.py`,
`src/FastGEO/schema.py`) against its natural-language specification.

The Python code is shallowly embedded: each component's algorithm is
translated into executable Lean definitions, and the specification's
claims are stated and settled as theorems about those definitions.
-/

/-! ## ContentChunker (`ContentChunker.__ft__`)

The chunker walks the block-level elements of the parsed HTML.  A block is
modelled by its serialized HTML (`str(b)`) and its stripped text
(`b.get_text(strip=True)`); blocks with empty text are skipped by the loop.
-/

/-- A block-level element: its serialized HTML and its stripped text. -/
structure Block where
  html : String
  text : String
deriving DecidableEq

/-- Worker for `pySplitWs`: walk the characters, accumulating the current
word (reversed); whitespace closes the current word, if any. -/
def pyWordsGo (cur : List Char) : List Char → List String
  | [] => if cur = [] then [] else [String.mk cur.reverse]
  | c :: cs =>
    if c.isWhitespace then
      if cur = [] then pyWordsGo [] cs
      else String.mk cur.reverse :: pyWordsGo [] cs
    else pyWordsGo (c :: cur) cs

/-- Python `text.split()`: split on whitespace runs, discarding empties. -/
def pySplitWs (s : String) : List String := pyWordsGo [] s.data

/-- `est` from the source: `max(1, len(text.split()))`. -/
def est (s : String) : Nat := max 1 (pySplitWs s).length

/-- An entry of the running chunk `cur`: `(block_html, token_cost)`. -/
abbrev Item := String × Nat

/-- Sum of the token costs of a list of items. -/
def costSum (l : List Item) : Nat := (l.map Prod.snd).sum

/-- Python slice `l[-overlap:]` for an arbitrary integer `overlap`:
positive takes the trailing `overlap` elements (clamped), zero yields the
whole list, negative drops the leading `-overlap` elements (clamped). -/
def pyTailSlice (l : List Item) (overlap : Int) : List Item :=
  if 0 < overlap then l.drop (l.length - overlap.toNat)
  else if overlap = 0 then l
  else l.drop (-overlap).toNat

/-- State of the chunking loop: emitted chunks (each paired with the number
of its leading elements that were carried over from the previous chunk),
the running chunk `cur` with its own carried-element count, and the running
token total `tok`. -/
structure ChunkSt where
  chunks : List (List Item × Nat)
  cur : List Item
  carried : Nat
  tok : Nat

/-- One iteration of the `for b in blocks` loop of `ContentChunker.__ft__`:
skip empty blocks; if adding the block would exceed `max_tokens` and `cur`
is non-empty, emit `cur`, seed the next chunk with `cur[-overlap:]` and
recompute `tok` (including the source's `if not cur: tok = 0` branch);
then append the block and its cost. -/
def chunkStep (maxTokens overlap : Int) (st : ChunkSt) (b : Block) : ChunkSt :=
  if b.text = "" then st
  else if ((st.tok + est b.text : Nat) : Int) > maxTokens ∧ st.cur ≠ [] then
    { chunks := st.chunks ++ [(st.cur, st.carried)]
      cur := pyTailSlice st.cur overlap ++ [(b.html, est b.text)]
      carried := (pyTailSlice st.cur overlap).length
      tok := (if pyTailSlice st.cur overlap = [] then 0
              else costSum (pyTailSlice st.cur overlap)) + est b.text }
  else
    { chunks := st.chunks
      cur := st.cur ++ [(b.html, est b.text)]
      carried := st.carried
      tok := st.tok + est b.text }

/-- The whole loop, started from the empty state. -/
def chunkFold (maxTokens overlap : Int) (blocks : List Block) : ChunkSt :=
  blocks.foldl (chunkStep maxTokens overlap) ⟨[], [], 0, 0⟩

/-- The final `chunks` list of `ContentChunker.__ft__` (after the trailing
`if cur: chunks.append(...)`), each chunk annotated with the number of its
leading carried-over elements. -/
def chunkWithInfo (blocks : List Block) (maxTokens overlap : Int) :
    List (List Item × Nat) :=
  let st := chunkFold maxTokens overlap blocks
  if st.cur = [] then st.chunks else st.chunks ++ [(st.cur, st.carried)]

/-- The chunker's output as the source stores it: lists of block HTML. -/
def contentChunkerChunks (blocks : List Block) (maxTokens overlap : Int) :
    List (List String) :=
  (chunkWithInfo blocks maxTokens overlap).map (fun p => p.1.map Prod.fst)

/-- The blocks of a chunk that were not carried over from the previous
chunk, i.e. the ones first appearing in it. -/
def newBlocks (p : List Item × Nat) : List Item := p.1.drop p.2

/-- Structural invariant of the loop state. -/
def goodState (st : ChunkSt) : Prop :=
  st.tok = costSum st.cur ∧
  (st.cur = [] → st.carried = 0) ∧
  (st.cur ≠ [] → st.carried < st.cur.length) ∧
  (∀ p ∈ st.chunks, p.1 ≠ [] ∧ p.2 < p.1.length)

/-- Concatenation of all first-appearing blocks seen so far. -/
def newJoin (st : ChunkSt) : List Item :=
  (st.chunks.map newBlocks).flatten ++ st.cur.drop st.carried

/-- The token bound: the first-appearing blocks of a chunk cost at most
`maxTokens`, unless they are a single oversized block. -/
def boundOk (maxTokens : Int) (l : List Item) : Prop :=
  ((costSum l : Nat) : Int) ≤ maxTokens ∨
    ∃ x, l = [x] ∧ ((x.2 : Nat) : Int) > maxTokens

/-- Bound invariant of the loop state. -/
def boundState (maxTokens : Int) (st : ChunkSt) : Prop :=
  boundOk maxTokens (st.cur.drop st.carried) ∧
  ∀ p ∈ st.chunks, boundOk maxTokens (newBlocks p)

theorem costSum_append (a b : List Item) :
    costSum (a ++ b) = costSum a + costSum b := by
  simp [costSum]

theorem costSum_drop_le (l : List Item) (k : Nat) :
    costSum (l.drop k) ≤ costSum l := by
  conv_rhs => rw [← List.take_append_drop k l]
  rw [costSum_append]
  omega

theorem costSum_nil : costSum [] = 0 := rfl

theorem costSum_singleton (x : Item) : costSum [x] = x.2 := by
  simp [costSum]

theorem tokReset_eq (carry : List Item) :
    (if carry = [] then 0 else costSum carry) = costSum carry := by
  split
  · simp_all [costSum]
  · rfl

theorem chunkStep_good (m o : Int) (st : ChunkSt) (b : Block)
    (h : goodState st) :
    goodState (chunkStep m o st b) ∧
    newJoin (chunkStep m o st b) =
      newJoin st ++ (if b.text = "" then [] else [(b.html, est b.text)]) := by
  obtain ⟨htok, hnilc, hltc, hch⟩ := h
  by_cases hb : b.text = ""
  · have hstep : chunkStep m o st b = st := by
      simp only [chunkStep]
      rw [if_pos hb]
    rw [hstep]
    exact ⟨⟨htok, hnilc, hltc, hch⟩, by simp [hb]⟩
  · by_cases hcl : ((st.tok + est b.text : Nat) : Int) > m ∧ st.cur ≠ []
    · -- close the current chunk, carry `cur[-overlap:]`, append the block
      have hstep : chunkStep m o st b =
          { chunks := st.chunks ++ [(st.cur, st.carried)]
            cur := pyTailSlice st.cur o ++ [(b.html, est b.text)]
            carried := (pyTailSlice st.cur o).length
            tok := (if pyTailSlice st.cur o = [] then 0
                    else costSum (pyTailSlice st.cur o)) + est b.text } := by
        simp only [chunkStep]
        rw [if_neg hb, if_pos hcl]
      rw [hstep]
      constructor
      · refine ⟨?_, ?_, ?_, ?_⟩
        · rw [tokReset_eq, costSum_append, costSum_singleton]
        · intro hc
          exact absurd hc (by simp)
        · intro _
          simp
        · intro p hp
          rcases List.mem_append.1 hp with hp | hp
          · exact hch p hp
          · have hpe : p = (st.cur, st.carried) := by simpa using hp
            subst hpe
            exact ⟨hcl.2, hltc hcl.2⟩
      · simp only [newJoin, newBlocks, List.map_append, List.flatten_append,
          List.map_cons, List.map_nil, List.flatten_cons, List.flatten_nil,
          List.append_nil, hb, if_neg]
        rw [List.drop_left]
        simp [List.append_assoc]
    · -- just append the block to the current chunk
      have hstep : chunkStep m o st b =
          { chunks := st.chunks
            cur := st.cur ++ [(b.html, est b.text)]
            carried := st.carried
            tok := st.tok + est b.text } := by
        simp only [chunkStep]
        rw [if_neg hb, if_neg hcl]
      have hcarle : st.carried ≤ st.cur.length := by
        by_cases hc : st.cur = []
        · simp [hnilc hc]
        · exact le_of_lt (hltc hc)
      rw [hstep]
      constructor
      · refine ⟨?_, ?_, ?_, hch⟩
        · rw [costSum_append, costSum_singleton, htok]
        · intro hc
          exact absurd hc (by simp)
        · intro _
          rw [List.length_append]
          simp only [List.length_cons, List.length_nil]
          omega
      · simp only [newJoin, hb, if_neg]
        rw [List.drop_append_of_le_length hcarle]
        simp [List.append_assoc]

theorem chunkStep_bound (m o : Int) (st : ChunkSt) (b : Block)
    (hg : goodState st) (hb : boundState m st) :
    boundState m (chunkStep m o st b) := by
  obtain ⟨htok, hnilc, hltc, hch⟩ := hg
  obtain ⟨hcur, hchb⟩ := hb
  by_cases hbt : b.text = ""
  · have hstep : chunkStep m o st b = st := by
      simp only [chunkStep]
      rw [if_pos hbt]
    rw [hstep]
    exact ⟨hcur, hchb⟩
  · by_cases hcl : ((st.tok + est b.text : Nat) : Int) > m ∧ st.cur ≠ []
    · have hstep : chunkStep m o st b =
          { chunks := st.chunks ++ [(st.cur, st.carried)]
            cur := pyTailSlice st.cur o ++ [(b.html, est b.text)]
            carried := (pyTailSlice st.cur o).length
            tok := (if pyTailSlice st.cur o = [] then 0
                    else costSum (pyTailSlice st.cur o)) + est b.text } := by
        simp only [chunkStep]
        rw [if_neg hbt, if_pos hcl]
      rw [hstep]
      constructor
      · simp only [List.drop_left]
        rcases le_or_lt ((est b.text : Nat) : Int) m with hle | hgt
        · exact Or.inl (by rw [costSum_singleton]; exact hle)
        · exact Or.inr ⟨(b.html, est b.text), rfl, hgt⟩
      · intro p hp
        rcases List.mem_append.1 hp with hp | hp
        · exact hchb p hp
        · have hpe : p = (st.cur, st.carried) := by simpa using hp
          subst hpe
          exact hcur
    · have hstep : chunkStep m o st b =
          { chunks := st.chunks
            cur := st.cur ++ [(b.html, est b.text)]
            carried := st.carried
            tok := st.tok + est b.text } := by
        simp only [chunkStep]
        rw [if_neg hbt, if_neg hcl]
      rw [hstep]
      refine ⟨?_, hchb⟩
      by_cases hc : st.cur = []
      · simp only [hnilc hc, hc, List.nil_append, List.drop_zero]
        rcases le_or_lt ((est b.text : Nat) : Int) m with hle | hgt
        · exact Or.inl (by rw [costSum_singleton]; exact hle)
        · exact Or.inr ⟨(b.html, est b.text), rfl, hgt⟩
      · have hle : ((st.tok + est b.text : Nat) : Int) ≤ m := by
          rcases not_and_or.1 hcl with hn | hn
          · omega
          · exact absurd hc hn
        have hcarle : st.carried ≤ st.cur.length := le_of_lt (hltc hc)
        rw [List.drop_append_of_le_length hcarle]
        refine Or.inl ?_
        rw [costSum_append, costSum_singleton]
        have hdl : costSum (st.cur.drop st.carried) ≤ costSum st.cur :=
          costSum_drop_le _ _
        rw [htok] at hle
        have : costSum (List.drop st.carried st.cur) + (b.html, est b.text).2 ≤
            costSum st.cur + est b.text := by
          simp only []
          omega
        omega

theorem chunkFold_good (m o : Int) (blocks : List Block) :
    ∀ st : ChunkSt, goodState st →
      goodState (blocks.foldl (chunkStep m o) st) ∧
      newJoin (blocks.foldl (chunkStep m o) st) =
        newJoin st ++
          ((blocks.filter (fun b => b.text != "")).map
            (fun b => (b.html, est b.text))) := by
  induction blocks with
  | nil =>
    intro st h
    exact ⟨h, by simp⟩
  | cons b bs ih =>
    intro st h
    have hstep := chunkStep_good m o st b h
    have hrest := ih _ hstep.1
    refine ⟨by simpa using hrest.1, ?_⟩
    rw [List.foldl_cons] at *
    rw [hrest.2, hstep.2]
    by_cases hbt : b.text = ""
    · simp [hbt]
    · simp [hbt, List.append_assoc]

theorem chunkFold_bound (m o : Int) (blocks : List Block) :
    ∀ st : ChunkSt, goodState st → boundState m st →
      boundState m (blocks.foldl (chunkStep m o) st) := by
  induction blocks with
  | nil =>
    intro st _ hb
    exact hb
  | cons b bs ih =>
    intro st hg hb
    exact ih _ (chunkStep_good m o st b hg).1 (chunkStep_bound m o st b hg hb)

theorem initState_good : goodState ⟨[], [], 0, 0⟩ := by
  refine ⟨rfl, fun _ => rfl, fun h => absurd rfl h, ?_⟩
  intro p hp
  simp at hp

/-- Every chunk in the final list is non-empty, its carried count is below
its length, and its first-appearing part is non-empty. -/
theorem chunkWithInfo_shape (blocks : List Block) (m o : Int) :
    ∀ p ∈ chunkWithInfo blocks m o, p.1 ≠ [] ∧ p.2 < p.1.length := by
  have hg := (chunkFold_good m o blocks _ initState_good).1
  obtain ⟨htok, hnilc, hltc, hch⟩ := hg
  intro p hp
  unfold chunkWithInfo at hp
  by_cases hc : (chunkFold m o blocks).cur = []
  · simp only [chunkFold] at hp hc
    rw [if_pos hc] at hp
    exact hch p hp
  · simp only [chunkFold] at hp hc
    rw [if_neg hc] at hp
    rcases List.mem_append.1 hp with hp | hp
    · exact hch p hp
    · have hpe : p = ((chunkFold m o blocks).cur, (chunkFold m o blocks).carried) := by
        simpa [chunkFold] using hp
      subst hpe
      exact ⟨hc, hltc hc⟩

/-- Concatenating, chunk by chunk, the blocks that first appear in each
chunk reconstructs the sequence of non-empty input blocks, for every
configuration. -/
theorem chunkWithInfo_flatten (blocks : List Block) (m o : Int) :
    ((chunkWithInfo blocks m o).map newBlocks).flatten =
      (blocks.filter (fun b => b.text != "")).map
        (fun b => (b.html, est b.text)) := by
  have hg := chunkFold_good m o blocks _ initState_good
  have hjoin : newJoin (chunkFold m o blocks) =
      (blocks.filter (fun b => b.text != "")).map
        (fun b => (b.html, est b.text)) := by
    have := hg.2
    simp only [chunkFold] at this ⊢
    rw [this]
    simp [newJoin]
  obtain ⟨htok, hnilc, hltc, hch⟩ := hg.1
  unfold chunkWithInfo
  by_cases hc : (chunkFold m o blocks).cur = []
  · simp only [chunkFold] at hc ⊢
    rw [if_pos hc]
    rw [← hjoin]
    simp [newJoin, chunkFold, hc]
  · simp only [chunkFold] at hc ⊢
    rw [if_neg hc]
    rw [← hjoin]
    simp [newJoin, newBlocks, chunkFold]

/-- Claim C2 (code bug witness): with `overlap = 0` the chunker still
carries blocks into the next chunk, because the Python slice `cur[-0:]` is
the entire list.  For the two 2-token blocks below with `max_tokens = 3`,
the first block appears in both output chunks, so blocks are duplicated
rather than each appearing in exactly one chunk. -/
theorem c2_overlap_zero_carries_previous_chunk :
    contentChunkerChunks [⟨"<p>a b</p>", "a b"⟩, ⟨"<p>c d</p>", "c d"⟩] 3 0 =
      [["<p>a b</p>"], ["<p>a b</p>", "<p>c d</p>"]] := by
  decide

/-- Claim C3: for every block sequence, `max_tokens > 0` and `overlap ≥ 0`,
every emitted chunk's first-appearing blocks (those not carried in from the
previous chunk) have total token estimate at most `max_tokens`, unless they
consist of a single block whose own estimate exceeds `max_tokens`. -/
theorem c3_chunk_token_bound (blocks : List Block) (m o : Int)
    (hm : 0 < m) (ho : 0 ≤ o) :
    ∀ p ∈ chunkWithInfo blocks m o, boundOk m (newBlocks p) := by
  have hb0 : boundState m ⟨[], [], 0, 0⟩ := by
    constructor
    · refine Or.inl ?_
      have : costSum (([] : List Item).drop 0) = 0 := rfl
      rw [this]
      omega
    · intro p hp
      simp at hp
  have hb := chunkFold_bound m o blocks _ initState_good hb0
  intro p hp
  unfold chunkWithInfo at hp
  by_cases hc : (chunkFold m o blocks).cur = []
  · simp only [chunkFold] at hp hc
    rw [if_pos hc] at hp
    exact hb.2 p hp
  · simp only [chunkFold] at hp hc
    rw [if_neg hc] at hp
    rcases List.mem_append.1 hp with hp | hp
    · exact hb.2 p hp
    · have hpe : p = ((chunkFold m o blocks).cur, (chunkFold m o blocks).carried) := by
        simpa [chunkFold] using hp
      subst hpe
      exact hb.1

/-- Witness for C3 at a concrete input. -/
theorem c3_chunk_token_bound_witness :
    boundOk 5 (newBlocks (([("<p>hello world</p>", 2)] : List Item), 0)) :=
  c3_chunk_token_bound [⟨"<p>hello world</p>", "hello world"⟩] 5 0
    (by decide) (by decide) (([("<p>hello world</p>", 2)], 0)) (by decide)

/-- Claim C4: for every block sequence and valid configuration,
concatenating each chunk's first-appearing blocks in chunk order yields
exactly the sequence of non-empty input blocks (no drop, no reorder), and
no emitted chunk is empty. -/
theorem c4_chunk_coverage (blocks : List Block) (m o : Int)
    (hm : 0 < m) (ho : 0 ≤ o) :
    ((chunkWithInfo blocks m o).map newBlocks).flatten =
      (blocks.filter (fun b => b.text != "")).map
        (fun b => (b.html, est b.text)) ∧
    ∀ p ∈ chunkWithInfo blocks m o, p.1 ≠ [] :=
  ⟨chunkWithInfo_flatten blocks m o,
   fun p hp => (chunkWithInfo_shape blocks m o p hp).1⟩

/-- Witness for C4 at a concrete input. -/
theorem c4_chunk_coverage_witness :
    ((chunkWithInfo [⟨"<p>hello world</p>", "hello world"⟩] 5 0).map
      newBlocks).flatten = [("<p>hello world</p>", 2)] :=
  ((c4_chunk_coverage [⟨"<p>hello world</p>", "hello world"⟩] 5 0
    (by decide) (by decide)).1).trans (by decide)

/-- Counterexample to claim C7: `max_tokens = 0` (≤ 0) is not rejected; the
chunker still returns ordinary chunk output. -/
theorem c7_no_validation_counterexample :
    contentChunkerChunks [⟨"<p>hi</p>", "hi"⟩] 0 0 = [["<p>hi</p>"]] ∧
    ([["<p>hi</p>"]] : List (List String)) ≠ [] := by
  decide

/-- Claim C7 amended: the chunker performs no validation of `max_tokens` or
`overlap`; for every configuration (including `max_tokens ≤ 0` and
`overlap < 0`) it totally returns a chunk list, which is empty exactly when
there is no non-empty input block. -/
theorem c7_no_validation_amended (blocks : List Block) (m o : Int) :
    contentChunkerChunks blocks m o = [] ↔
      blocks.filter (fun b => b.text != "") = [] := by
  unfold contentChunkerChunks
  rw [List.map_eq_nil_iff]
  constructor
  · intro h
    have hfl := chunkWithInfo_flatten blocks m o
    rw [h] at hfl
    simp only [List.map_nil, List.flatten_nil] at hfl
    exact List.map_eq_nil_iff.1 hfl.symm
  · intro h
    have hfl := chunkWithInfo_flatten blocks m o
    rw [h] at hfl
    simp only [List.map_nil] at hfl
    have hall := List.flatten_eq_nil_iff.1 hfl
    cases hc : chunkWithInfo blocks m o with
    | nil => rfl
    | cons p t =>
      have hshape := chunkWithInfo_shape blocks m o p
        (by rw [hc]; exact List.mem_cons_self p t)
      have hnb : newBlocks p = [] := hall (newBlocks p)
        (by rw [hc]; simp)
      have hlen : p.1.length - p.2 = 0 := by
        have := congrArg List.length hnb
        simpa [newBlocks] using this
      exact absurd hshape.2 (by omega)

/-! ## TechnicalTermOptimizer (`TechnicalTermOptimizer.__ft__`)

The annotator visits each text node and iterates over the glossary in
order.  For a matching term it splits the node's text at the first
occurrence and replaces the node by `[before?, span, after?]`; the Python
loop variable `txt` still refers to the *original*, now detached, string,
so a second matching term calls `insert_before` on a node without a parent
and BeautifulSoup raises `ValueError` (str.partition with an empty
separator likewise raises `ValueError`).  We model the processing of one
original text node. -/

/-- A fragment produced in place of a text node: plain text, or the
`<span class="technical-term" data-definition=...>` wrapper. -/
inductive Frag
  | text (s : String)
  | span (term defn : String)
deriving DecidableEq

/-- Split `hay` at the first occurrence of `pat`, returning the parts
before and after the match (Python `str.partition` without the separator
component); `none` if `pat` does not occur. -/
def splitFirst (pat : List Char) : List Char → Option (List Char × List Char)
  | [] => if pat.isPrefixOf ([] : List Char) then some ([], []) else none
  | c :: t =>
    if pat.isPrefixOf (c :: t) then some ([], (c :: t).drop pat.length)
    else (splitFirst pat t).map (fun p => (c :: p.1, p.2))

/-- Python `term in txt`. -/
def strContains (txt term : String) : Bool := (splitFirst term.data txt.data).isSome

/-- Python `txt.partition(term)` (before and after parts; only used when
the term occurs and is non-empty). -/
def strPartition (txt term : String) : String × String :=
  match splitFirst term.data txt.data with
  | some (b, a) => (String.mk b, String.mk a)
  | none => (txt, "")

/-- The sibling sequence the source inserts for a match: the before-text
(if non-empty), the wrapper span, and the remainder (if non-empty). -/
def wrapFrags (term defn before after : String) : List Frag :=
  (if before ≠ "" then [Frag.text before] else []) ++ [Frag.span term defn] ++
    (if after ≠ "" then [Frag.text after] else [])

/-- The glossary loop of `TechnicalTermOptimizer.__ft__` over one original
text node.  `st = none` while the node is still attached; after the first
replacement `st` holds the inserted fragments and the original node is
detached, so any further matching term raises `ValueError` (as does an
empty term via `str.partition`). -/
def annotateGo (txt : String) :
    List (String × String) → Option (List Frag) → Except String (List Frag)
  | [], none => .ok [Frag.text txt]
  | [], some fs => .ok fs
  | (term, defn) :: rest, st =>
    if strContains txt term then
      match st with
      | none =>
        if term = "" then .error "ValueError"
        else
          annotateGo txt rest
            (some (wrapFrags term defn (strPartition txt term).1
              (strPartition txt term).2))
      | some _ => .error "ValueError"
    else annotateGo txt rest st

/-- Processing of one original text node by the glossary loop. -/
def annotateNode (glossary : List (String × String)) (txt : String) :
    Except String (List Frag) :=
  annotateGo txt glossary none

/-- Claim C5 (code bug witness): a single matching term is wrapped
correctly, but when two distinct glossary terms occur in the same original
text node the loop raises `ValueError` instead of applying both: after the
first replacement the node is detached and `insert_before` fails. -/
theorem c5_two_terms_same_node_raises :
    annotateNode [("HTML", "markup language")] "HTML and CSS" =
      .ok [Frag.span "HTML" "markup language", Frag.text " and CSS"] ∧
    annotateNode [("HTML", "markup language"), ("CSS", "style language")]
      "HTML and CSS" = .error "ValueError" :=
  ⟨rfl, rfl⟩

/-! ## JSON-LD values

A JSON value, with Python-dict field order preserved, used for the
structured-metadata (schema.org) documents. -/

/-- A JSON value (object fields in insertion order, as in a Python dict). -/
inductive JVal
  | str (s : String)
  | num (n : Int)
  | bool (b : Bool)
  | null
  | arr (xs : List JVal)
  | obj (kvs : List (String × JVal))

/-! ## CitationOptimizer (`CitationOptimizer.__ft__`)

The content is modelled as the document-order sequence of its nodes:
plain text, citation-marker spans (`<span class="citation-marker"
data-citation-id=...>`), `<cite>` elements carrying their visible label,
and the appended References section. -/

/-- A citation metadata record (the dict entries the source reads). -/
structure Citation where
  id : String
  title : String
  authors : List String
  publisher : String
  date : String
  url : Option String
deriving DecidableEq

/-- A content node, in document order. -/
inductive CNode
  | text (s : String)
  | marker (cid : String)
  | cite (cid : String) (label : String)
  | refs (entries : List String)
deriving DecidableEq

/-- Python `", ".join(authors)`. -/
def joinCommaSep : List String → String
  | [] => ""
  | [a] => a
  | a :: b :: rest => a ++ ", " ++ joinCommaSep (b :: rest)

/-- The reference-list entry the source formats for one record:
`f"{', '.join(authors)}. \"{title}\". {publisher} {date}"`. -/
def formatRef (c : Citation) : String :=
  joinCommaSep c.authors ++ ". \"" ++ c.title ++ "\". " ++ c.publisher ++
    " " ++ c.date

/-- Does this node match `soup.find("span", class_="citation-marker",
attrs={"data-citation-id": cid})`? -/
def isMarkerFor (cid : String) : CNode → Bool
  | .marker c => c == cid
  | _ => false

def hasMarker (content : List CNode) (cid : String) : Bool :=
  content.any (isMarkerFor cid)

/-- The auto-insertion loop: for each record whose id has no marker in the
(current) content, append a fresh marker at the end of the target. -/
def autoInsert (content : List CNode) (cs : List Citation) : List CNode :=
  cs.foldl
    (fun acc c => if hasMarker acc c.id then acc else acc ++ [CNode.marker c.id])
    content

/-- Marker replacement for one record: every marker with its id becomes
`<cite id='cite-{cid}'>[{cid}]</cite>` — the label uses the raw id. -/
def replaceMarker (c : Citation) : CNode → CNode
  | .marker m =>
    if m == c.id then CNode.cite c.id ("[" ++ c.id ++ "]") else CNode.marker m
  | n => n

/-- The replacement loop over all records. -/
def replaceAll (content : List CNode) (cs : List Citation) : List CNode :=
  cs.foldl (fun acc c => acc.map (replaceMarker c)) content

/-- `CitationOptimizer.__ft__` on the content: auto-insert missing markers,
replace markers with cites, then append the References section (one entry
per record of the citations list, in list order, always appended). -/
def citationOptimize (content : List CNode) (cs : List Citation) : List CNode :=
  replaceAll (autoInsert content cs) cs ++ [CNode.refs (cs.map formatRef)]

/-- The `ScholarlyArticle` JSON-LD entry built for one record. -/
def citationEntry (c : Citation) : JVal :=
  .obj [("@type", .str "CreativeWork"), ("name", .str c.title),
        ("author", .arr (c.authors.map JVal.str)),
        ("publisher", .str c.publisher), ("datePublished", .str c.date),
        ("url", match c.url with | some u => JVal.str u | none => JVal.null)]

/-- The `ScholarlyArticle` JSON-LD document of `CitationOptimizer.__ft__`. -/
def citationSchema (cs : List Citation) : JVal :=
  .obj [("@context", .str "https://schema.org"),
        ("@type", .str "ScholarlyArticle"),
        ("citation", .arr (cs.map citationEntry))]

/-- Number of markers for a given id in the content. -/
def countMarker (content : List CNode) (cid : String) : Nat :=
  content.countP (isMarkerFor cid)

/-- Counterexample to claim C1: resolving the call-order id sequence
`[5, 3, 5, 7]` renders the first marker as `[5]` — the raw id — not as
`[1]`, the first-seen sequence number the claim requires. -/
theorem c1_raw_id_label_counterexample :
    (citationOptimize
      [CNode.marker "5", CNode.marker "3", CNode.marker "5", CNode.marker "7"]
      [⟨"5", "T5", ["A5"], "P5", "2020", none⟩,
       ⟨"3", "T3", ["A3"], "P3", "2021", none⟩,
       ⟨"7", "T7", ["A7"], "P7", "2022", none⟩]).head? =
      some (CNode.cite "5" "[5]") ∧
    some (CNode.cite "5" "[5]") ≠ some (CNode.cite "5" "[1]") := by
  exact ⟨rfl, by decide⟩

/-- Claim C1 amended: markers are replaced by visible references labelled
with the raw citation id (`[5]`, `[3]`, `[7]` — no sequence renumbering,
and the repeated id `5` keeps the same raw label), and the bibliography
lists one entry per record of the citations list in list order, each
exactly once. -/
theorem c1_citation_rendering_amended :
    citationOptimize
      [CNode.marker "5", CNode.marker "3", CNode.marker "5", CNode.marker "7"]
      [⟨"5", "T5", ["A5"], "P5", "2020", none⟩,
       ⟨"3", "T3", ["A3"], "P3", "2021", none⟩,
       ⟨"7", "T7", ["A7"], "P7", "2022", none⟩] =
      [CNode.cite "5" "[5]", CNode.cite "3" "[3]", CNode.cite "5" "[5]",
       CNode.cite "7" "[7]",
       CNode.refs ["A5. \"T5\". P5 2020", "A3. \"T3\". P3 2021",
                   "A7. \"T7\". P7 2022"]] := by
  rfl

/-- Counterexample to claim C6: a marker whose id (`"9"`) is absent from
the records list raises no error; the call returns an ordinary output in
which that marker is silently left in place (and the content is mutated by
marker auto-insertion and the appended References section). -/
theorem c6_unknown_id_counterexample :
    citationOptimize [CNode.marker "9"] [⟨"1", "T1", ["A1"], "P1", "2020", none⟩] =
      [CNode.marker "9", CNode.cite "1" "[1]", CNode.refs ["A1. \"T1\". P1 2020"]] ∧
    countMarker
      (citationOptimize [CNode.marker "9"] [⟨"1", "T1", ["A1"], "P1", "2020", none⟩])
      "9" = 1 := by
  exact ⟨rfl, rfl⟩

theorem countMarker_autoInsert (cid : String) :
    ∀ (cs : List Citation) (content : List CNode), (∀ c ∈ cs, c.id ≠ cid) →
      countMarker (autoInsert content cs) cid = countMarker content cid := by
  intro cs
  induction cs with
  | nil =>
    intro content _
    rfl
  | cons c t ih =>
    intro content h
    have hstep :
        countMarker
          (if hasMarker content c.id then content
           else content ++ [CNode.marker c.id]) cid = countMarker content cid := by
      split
      · rfl
      · unfold countMarker
        rw [List.countP_append]
        have : (isMarkerFor cid) (CNode.marker c.id) = false := by
          simp [isMarkerFor]
          exact h c (List.mem_cons_self c t)
        simp [this]
    have := ih
      (if hasMarker content c.id then content else content ++ [CNode.marker c.id])
      (fun x hx => h x (List.mem_cons_of_mem c hx))
    calc countMarker (autoInsert content (c :: t)) cid
        = countMarker
            (autoInsert
              (if hasMarker content c.id then content
               else content ++ [CNode.marker c.id]) t) cid := rfl
      _ = countMarker
            (if hasMarker content c.id then content
             else content ++ [CNode.marker c.id]) cid := this
      _ = countMarker content cid := hstep

theorem countMarker_map_replace (cid : String) (c : Citation) (h : c.id ≠ cid) :
    ∀ l : List CNode,
      countMarker (l.map (replaceMarker c)) cid = countMarker l cid := by
  intro l
  induction l with
  | nil => rfl
  | cons n t ih =>
    unfold countMarker at *
    rw [List.map_cons, List.countP_cons, List.countP_cons, ih]
    have : isMarkerFor cid (replaceMarker c n) = isMarkerFor cid n := by
      cases n with
      | marker m =>
        by_cases hm : m = c.id
        · subst hm
          have hf : (c.id == cid) = false := by simp [h]
          simp [replaceMarker, isMarkerFor, hf]
        · simp [replaceMarker, isMarkerFor, hm]
      | text s => rfl
      | cite a b => rfl
      | refs e => rfl
    rw [this]

theorem countMarker_replaceAll (cid : String) :
    ∀ (cs : List Citation) (content : List CNode), (∀ c ∈ cs, c.id ≠ cid) →
      countMarker (replaceAll content cs) cid = countMarker content cid := by
  intro cs
  induction cs with
  | nil =>
    intro content _
    rfl
  | cons c t ih =>
    intro content h
    calc countMarker (replaceAll content (c :: t)) cid
        = countMarker (replaceAll (content.map (replaceMarker c)) t) cid := rfl
      _ = countMarker (content.map (replaceMarker c)) cid :=
          ih _ (fun x hx => h x (List.mem_cons_of_mem c hx))
      _ = countMarker content cid :=
          countMarker_map_replace cid c (h c (List.mem_cons_self c t)) content

/-- Claim C6 amended: a marker whose citation id is absent from the records
list is silently skipped — the call raises no error and leaves every such
marker in place (their count is unchanged), while still auto-inserting
markers for the supplied records, replacing those, and appending the
References section. -/
theorem c6_unknown_id_amended (content : List CNode) (cs : List Citation)
    (cid : String) (h : ∀ c ∈ cs, c.id ≠ cid) :
    countMarker (citationOptimize content cs) cid = countMarker content cid := by
  unfold citationOptimize countMarker
  rw [List.countP_append]
  have h1 := countMarker_replaceAll cid cs (autoInsert content cs) h
  have h2 := countMarker_autoInsert cid cs content h
  unfold countMarker at h1 h2
  rw [h1, h2]
  simp [isMarkerFor]

/-- Witness for the amended C6 at a concrete input. -/
theorem c6_unknown_id_amended_witness :
    countMarker
      (citationOptimize [CNode.marker "9"] [⟨"1", "T1", ["A1"], "P1", "2020", none⟩])
      "9" = countMarker [CNode.marker "9"] "9" :=
  c6_unknown_id_amended [CNode.marker "9"] [⟨"1", "T1", ["A1"], "P1", "2020", none⟩]
    "9" (by decide)

/-- Counterexample to claim C8: citing with an empty records list does not
return the content unchanged — an (empty) References section, with its
visible heading, is still appended. -/
theorem c8_empty_citations_counterexample :
    citationOptimize [CNode.text "x"] [] = [CNode.text "x", CNode.refs []] ∧
    ([CNode.text "x", CNode.refs []] : List CNode) ≠ [CNode.text "x"] := by
  exact ⟨rfl, by decide⟩

/-- Claim C8 amended: with an empty citations list no marker is inserted or
replaced and the content is preserved, but an empty References section is
appended to it, and the structured-metadata document is the
`ScholarlyArticle` document with an empty citation list. -/
theorem c8_empty_citations_amended (content : List CNode) :
    citationOptimize content [] = content ++ [CNode.refs []] ∧
    citationSchema [] =
      JVal.obj [("@context", JVal.str "https://schema.org"),
                ("@type", JVal.str "ScholarlyArticle"),
                ("citation", JVal.arr [])] := by
  exact ⟨rfl, rfl⟩

/-! ## Structured-metadata documents (`LLMBlock.__ft__`, `FAQOptimizer.__ft__`,
and `generate_schema_markup` in `src/FastGEO/schema.py`) -/

/-- The JSON-LD document `LLMBlock.__ft__` builds.  The source reads the
clock (`datetime.utcnow().isoformat(timespec="seconds") + "Z"`); the
current time is therefore an explicit input `now` of the embedding. -/
def llmBlockSchema (ctx role : String) (schemaType : Option String)
    (now : String) : JVal :=
  .obj [("@context", .str "https://schema.org"),
        ("@type", .str (match schemaType with
          | some s => if s = "" then "WebPageElement" else s
          | none => "WebPageElement")),
        ("role", .str role),
        ("dateCreated", .str (now ++ "Z")),
        ("llmContext", .str ctx.trim)]

/-- The `FAQPage` JSON-LD document `FAQOptimizer.__ft__` builds. -/
def faqSchema (qaPairs : List (String × String)) : JVal :=
  .obj [("@context", .str "https://schema.org"),
        ("@type", .str "FAQPage"),
        ("mainEntity", .arr (qaPairs.map (fun qa =>
          JVal.obj [("@type", .str "Question"), ("name", .str qa.1),
                    ("acceptedAnswer",
                     .obj [("@type", .str "Answer"), ("text", .str qa.2)])])))]

/-- Remove the `dateCreated` field of a JSON-LD object. -/
def dropDateCreated : JVal → JVal
  | .obj kvs => .obj (kvs.filter (fun kv => kv.1 != "dateCreated"))
  | v => v

/-- Counterexample to claim C9: the LLM-context block's structured-metadata
document is not a pure function of its arguments — two calls with
identical arguments at different clock readings differ. -/
theorem c9_time_dependence_counterexample :
    llmBlockSchema "ctx" "summary" none "2024-01-01T00:00:00" ≠
      llmBlockSchema "ctx" "summary" none "2024-01-02T00:00:00" := by
  intro hEq
  simp [llmBlockSchema] at hEq

/-- Claim C9 amended: the structured-metadata builders are pure functions
of their arguments except that the LLM-context block's document also
depends on the current time, and only through its `dateCreated` field:
erasing that field makes the documents of any two clock readings equal. -/
theorem c9_schema_purity_amended (ctx role : String)
    (schemaType : Option String) (n1 n2 : String) :
    dropDateCreated (llmBlockSchema ctx role schemaType n1) =
      dropDateCreated (llmBlockSchema ctx role schemaType n2) := rfl

/-- Python-dict indentation helper: `n` spaces. -/
def sp (n : Nat) : String := String.mk (List.replicate n ' ')

/-- JSON string escaping for the common escapes. -/
def escChar (c : Char) : String :=
  if c = '"' then "\\\"" else if c = '\\' then "\\\\"
  else if c = '\n' then "\\n" else if c = '\t' then "\\t"
  else if c = '\r' then "\\r" else String.mk [c]

def jsonEscape (s : String) : String := String.join (s.data.map escChar)

mutual
/-- `json.dumps(v, indent=2)` at indentation level `ind`. -/
def dumpJ (ind : Nat) : JVal → String
  | .str s => "\"" ++ jsonEscape s ++ "\""
  | .num n => toString n
  | .bool b => if b then "true" else "false"
  | .null => "null"
  | .arr [] => "[]"
  | .arr (x :: xs) =>
    "[\n" ++ dumpItems (ind + 2) (x :: xs) ++ "\n" ++ sp ind ++ "]"
  | .obj [] => "\x7b\x7d"
  | .obj (kv :: kvs) =>
    "\x7b\n" ++ dumpPairs (ind + 2) (kv :: kvs) ++ "\n" ++ sp ind ++ "\x7d"

/-- Array elements, one per line, comma-separated. -/
def dumpItems (ind : Nat) : List JVal → String
  | [] => ""
  | [x] => sp ind ++ dumpJ ind x
  | x :: y :: rest => sp ind ++ dumpJ ind x ++ ",\n" ++ dumpItems ind (y :: rest)

/-- Object fields, one per line, comma-separated. -/
def dumpPairs (ind : Nat) : List (String × JVal) → String
  | [] => ""
  | [(k, v)] => sp ind ++ "\"" ++ jsonEscape k ++ "\": " ++ dumpJ ind v
  | (k, v) :: q :: rest =>
    sp ind ++ "\"" ++ jsonEscape k ++ "\": " ++ dumpJ ind v ++ ",\n" ++
      dumpPairs ind (q :: rest)
end

/-- Look up a key in an ordered field list. -/
def jget (kvs : List (String × JVal)) (k : String) : Option JVal :=
  (kvs.find? (fun p => p.1 == k)).map Prod.snd

/-- Python dict assignment `d[k] = v`: replace in place if the key exists,
else append. -/
def dictSet (kvs : List (String × JVal)) (k : String) (v : JVal) :
    List (String × JVal) :=
  if kvs.any (fun p => p.1 == k) then
    kvs.map (fun p => if p.1 == k then (k, v) else p)
  else kvs ++ [(k, v)]

/-- Python `d.update(ps)`. -/
def dictUpdate (d ps : List (String × JVal)) : List (String × JVal) :=
  ps.foldl (fun acc p => dictSet acc p.1 p.2) d

/-- Python truthiness of an optional string (`None` and `""` are falsy). -/
def pyTruthy : Option String → Bool
  | none => false
  | some s => s != ""

/-- The schema dict built by `generate_schema_markup` for a truthy
`schema_type`: base fields, `description` from a truthy `context`, then
`schema.update(props)` for a truthy `props`. -/
def generateSchemaObj (schemaType : String) (context : Option String)
    (props : Option (List (String × JVal))) : List (String × JVal) :=
  let s1 := [("@context", JVal.str "https://schema.org"),
             ("@type", JVal.str schemaType)]
  let s2 := if pyTruthy context then
      dictSet s1 "description" (JVal.str (context.getD "")) else s1
  match props with
  | some [] => s2
  | some (p :: ps) => dictUpdate s2 (p :: ps)
  | none => s2

def scriptWrap (s : String) : String :=
  "<script type=\"application/ld+json\">" ++ s ++ "</script>"

/-- `generate_schema_markup` from `src/FastGEO/schema.py`: empty string for
a falsy `schema_type`, otherwise the schema dict dumped with `indent=2`
inside a JSON-LD script tag. -/
def generate_schema_markup (schemaType context : Option String)
    (props : Option (List (String × JVal))) : String :=
  if pyTruthy schemaType then
    scriptWrap (dumpJ 0 (JVal.obj
      (generateSchemaObj (schemaType.getD "") context props)))
  else ""

theorem find?_mapSet_ne (k k' : String) (v : JVal) (h : k' ≠ k) :
    ∀ d : List (String × JVal),
      List.find? (fun p => p.1 == k)
        (d.map (fun p => if p.1 == k' then (k', v) else p)) =
      List.find? (fun p => p.1 == k) d := by
  intro d
  induction d with
  | nil => rfl
  | cons p t ih =>
    by_cases hp : p.1 = k'
    · rw [List.map_cons]
      rw [if_pos (by simp [hp])]
      rw [List.find?_cons_of_neg _ (by simp [h]),
        List.find?_cons_of_neg _ (by simp [hp, h])]
      exact ih
    · rw [List.map_cons, if_neg (by simp [hp])]
      by_cases hk : p.1 = k
      · rw [List.find?_cons_of_pos _ (by simp [hk]),
          List.find?_cons_of_pos _ (by simp [hk])]
      · rw [List.find?_cons_of_neg _ (by simp [hk]),
          List.find?_cons_of_neg _ (by simp [hk])]
        exact ih

theorem find?_append_singleton_ne (k k' : String) (v : JVal) (h : k' ≠ k) :
    ∀ d : List (String × JVal),
      List.find? (fun p => p.1 == k) (d ++ [(k', v)]) =
        List.find? (fun p => p.1 == k) d := by
  intro d
  induction d with
  | nil =>
    simp only [List.nil_append]
    rw [List.find?_cons_of_neg _ (by simp [h])]
  | cons p t ih =>
    by_cases hk : p.1 = k
    · rw [List.cons_append, List.find?_cons_of_pos _ (by simp [hk]),
        List.find?_cons_of_pos _ (by simp [hk])]
    · rw [List.cons_append, List.find?_cons_of_neg _ (by simp [hk]),
        List.find?_cons_of_neg _ (by simp [hk])]
      exact ih

theorem jget_dictSet_ne (d : List (String × JVal)) (k k' : String) (v : JVal)
    (h : k' ≠ k) : jget (dictSet d k' v) k = jget d k := by
  unfold dictSet jget
  split
  · rw [find?_mapSet_ne k k' v h d]
  · rw [find?_append_singleton_ne k k' v h d]

theorem jget_dictUpdate_not_bound (k : String) :
    ∀ (ps d : List (String × JVal)), (∀ q ∈ ps, q.1 ≠ k) →
      jget (dictUpdate d ps) k = jget d k := by
  intro ps
  induction ps with
  | nil =>
    intro d _
    rfl
  | cons q t ih =>
    intro d h
    calc jget (dictUpdate d (q :: t)) k
        = jget (dictUpdate (dictSet d q.1 q.2) t) k := rfl
      _ = jget (dictSet d q.1 q.2) k :=
          ih _ (fun x hx => h x (List.mem_cons_of_mem q hx))
      _ = jget d k := jget_dictSet_ne d k q.1 q.2 (h q (List.mem_cons_self q t))

/-- Counterexample to claim C10: with `props = {"description": "other"}`
and no context supplied, the emitted JSON object still contains a
`description` field (props entries are merged last and override), so the
object does not contain a description exactly when a non-empty context is
supplied. -/
theorem c10_props_override_counterexample :
    jget (generateSchemaObj "Article" none (some [("description", JVal.str "other")]))
      "description" = some (JVal.str "other") ∧
    pyTruthy none = false := by
  exact ⟨rfl, rfl⟩

/-- Claim C10 amended: `generate_schema_markup` returns `""` whenever
`schema_type` is `None` or empty, regardless of the other arguments; for a
non-empty `schema_type`, *provided the supplied props bind none of the
keys `@context`, `@type`, `description`*, it returns a JSON-LD script tag
whose object carries `@context = "https://schema.org"`, `@type =
schema_type`, and a `description` equal to `context` exactly when a
non-empty context is supplied (props entries are merged last and may
otherwise override any of these fields). -/
theorem c10_schema_markup_amended :
    (∀ ctx props, generate_schema_markup none ctx props = "" ∧
      generate_schema_markup (some "") ctx props = "") ∧
    (∀ (st : String) (ctx : Option String)
      (props : Option (List (String × JVal))),
      st ≠ "" →
      (∀ q ∈ props.getD [],
        q.1 ≠ "@context" ∧ q.1 ≠ "@type" ∧ q.1 ≠ "description") →
      jget (generateSchemaObj st ctx props) "@context" =
        some (JVal.str "https://schema.org") ∧
      jget (generateSchemaObj st ctx props) "@type" = some (JVal.str st) ∧
      jget (generateSchemaObj st ctx props) "description" =
        (if pyTruthy ctx then some (JVal.str (ctx.getD "")) else none) ∧
      generate_schema_markup (some st) ctx props =
        scriptWrap (dumpJ 0 (JVal.obj (generateSchemaObj st ctx props)))) := by
  constructor
  · intro ctx props
    exact ⟨rfl, rfl⟩
  · intro st ctx props hst hprops
    have hbase : ∀ k : String,
        (∀ q ∈ props.getD [], q.1 ≠ k) →
        jget (generateSchemaObj st ctx props) k =
          jget (if pyTruthy ctx then
            dictSet [("@context", JVal.str "https://schema.org"),
                     ("@type", JVal.str st)] "description"
              (JVal.str (ctx.getD ""))
            else [("@context", JVal.str "https://schema.org"),
                  ("@type", JVal.str st)]) k := by
      intro k hk
      cases props with
      | none => rfl
      | some ps =>
        cases ps with
        | nil => rfl
        | cons p t =>
          have hobj : generateSchemaObj st ctx (some (p :: t)) =
              dictUpdate (if pyTruthy ctx then
                dictSet [("@context", JVal.str "https://schema.org"),
                         ("@type", JVal.str st)] "description"
                  (JVal.str (ctx.getD ""))
                else [("@context", JVal.str "https://schema.org"),
                      ("@type", JVal.str st)]) (p :: t) := rfl
          rw [hobj]
          exact jget_dictUpdate_not_bound k (p :: t) _ hk
    refine ⟨?_, ?_, ?_, ?_⟩
    · rw [hbase "@context" (fun q hq => ((hprops q hq).1))]
      cases hct : pyTruthy ctx
      · rfl
      · rfl
    · rw [hbase "@type" (fun q hq => ((hprops q hq).2.1))]
      cases hct : pyTruthy ctx
      · rfl
      · rfl
    · rw [hbase "description" (fun q hq => ((hprops q hq).2.2))]
      cases hct : pyTruthy ctx
      · rfl
      · rfl
    · have htr : pyTruthy (some st) = true := by
        simp [pyTruthy, hst]
      simp only [generate_schema_markup, htr, if_true, Option.getD_some]

/-- Witness for the amended C10 at a concrete input. -/
theorem c10_schema_markup_amended_witness :
    jget (generateSchemaObj "Article" (some "about cats")
        (some [("author", JVal.str "X")])) "@context" =
      some (JVal.str "https://schema.org") ∧
    jget (generateSchemaObj "Article" (some "about cats")
        (some [("author", JVal.str "X")])) "@type" = some (JVal.str "Article") ∧
    jget (generateSchemaObj "Article" (some "about cats")
        (some [("author", JVal.str "X")])) "description" =
      (if pyTruthy (some "about cats") then
        some (JVal.str ((some "about cats").getD "")) else none) ∧
    generate_schema_markup (some "Article") (some "about cats")
        (some [("author", JVal.str "X")]) =
      scriptWrap (dumpJ 0 (JVal.obj (generateSchemaObj "Article"
        (some "about cats") (some [("author", JVal.str "X")])))) :=
  c10_schema_markup_amended.2 "Article" (some "about cats")
    (some [("author", JVal.str "X")]) (by decide) (by decide)
